import Mathlib

set_option maxHeartbeats 1000000

namespace NoirLsp

/-- A text buffer: the ropey Rope modelled as the sequence of characters of the document. -/
abbrev Rope := List Char

/-- Rope::from_str builds a buffer from the full document text. -/
def ropeFromStr (s : String) : Rope := s.data

/-- lsp_types Position: zero-based line and character, both u32 fields. -/
structure Position where
  line : Nat
  character : Nat
  deriving DecidableEq

/-- Position::new together with the `as u32` casts applied at its call sites. -/
def Position.new (line character : Nat) : Position :=
  { line := line % 2 ^ 32, character := character % 2 ^ 32 }

/-- lsp_types Range, written with fields start and stop since end is reserved. -/
structure Range where
  start : Position
  stop : Position
  deriving DecidableEq

/-- noirc_frontend literal expressions; the payloads are carried but never inspected
by the server (every match arm binds them with an underscore). -/
inductive Literal where
  | array (len : Nat)
  | bool (b : Bool)
  | integer (v : Int)
  | str (s : String)
  deriving DecidableEq

/-- noirc_frontend ExpressionKind, collapsed to the two cases the server distinguishes:
a literal, or any other expression kind. -/
inductive ExpressionKind where
  | literal (lit : Literal)
  | other
  deriving DecidableEq

/-- A span of the source; Span carries u32 endpoints in noirc_frontend. -/
structure Span where
  start : Nat
  stop : Nat
  deriving DecidableEq

structure Expression where
  kind : ExpressionKind
  span : Span
  deriving DecidableEq

structure LetStatement where
  expression : Expression
  deriving DecidableEq

/-- noirc_frontend Statement, collapsed to Let and every other statement form. -/
inductive Statement where
  | letS (val : LetStatement)
  | other
  deriving DecidableEq

/-- FunctionKind: Normal versus the low-level and builtin kinds. -/
inductive FunctionKind where
  | normal
  | other
  deriving DecidableEq

/-- FunctionDef: the statement list of the function body (field 0 of BlockExpression). -/
structure FunctionDef where
  body : List Statement
  deriving DecidableEq

structure NoirFunction where
  kind : FunctionKind
  fdef : FunctionDef
  deriving DecidableEq

structure ParsedModule where
  functions : List NoirFunction
  deriving DecidableEq

/-- The label computed for a let statement expression, main.rs lines 117 to 129. -/
def literalTypeOf : ExpressionKind → Option String
  | .literal lit =>
    match lit with
    | .array _ => some ": array"
    | .bool _ => some ": bool"
    | .integer _ => some ": integer"
    | .str _ => some ": string"
  | .other => none

/-- The tuples pushed for one statement: a Let statement pushes
(span start, span end, label), main.rs lines 116 to 136. -/
def stmtInlays : Statement → List (Nat × Nat × Option String)
  | .letS val =>
      [(val.expression.span.start, val.expression.span.stop, literalTypeOf val.expression.kind)]
  | .other => []

def stmtsInlays : List Statement → List (Nat × Nat × Option String)
  | [] => []
  | s :: rest => stmtInlays s ++ stmtsInlays rest

/-- Only FunctionKind::Normal bodies are walked, main.rs lines 109 to 139. -/
def funcInlays (f : NoirFunction) : List (Nat × Nat × Option String) :=
  match f.kind with
  | .normal => stmtsInlays f.fdef.body
  | .other => []

def funcsInlays : List NoirFunction → List (Nat × Nat × Option String)
  | [] => []
  | f :: rest => funcInlays f ++ funcsInlays rest

/-- The inlays vector built by the ast walk in inlay_hint, main.rs lines 90 to 140. -/
def extractInlays (m : ParsedModule) : List (Nat × Nat × Option String) :=
  funcsInlays m.functions

/-- Number of line breaks in the text; ropey len_lines is this plus one. -/
def countNL : Rope → Nat
  | [] => 0
  | c :: rest => countNL rest + (if c = '\n' then 1 else 0)

/-- ropey try_char_to_line: the zero-based line holding the given char offset,
defined for offsets up to and including the length of the text. -/
def try_char_to_line (rope : Rope) (offset : Nat) : Option Nat :=
  if offset ≤ rope.length then some (countNL (List.take offset rope)) else none

/-- Char index of the first character of the given line. -/
def lineStart : Rope → Nat → Nat
  | _, 0 => 0
  | [], _ + 1 => 0
  | c :: rest, l + 1 => 1 + (if c = '\n' then lineStart rest l else lineStart rest (l + 1))

/-- ropey try_line_to_char: the start offset of a line, every line index up to one past
the index of the last line being valid. -/
def try_line_to_char (rope : Rope) (line : Nat) : Option Nat :=
  if line ≤ countNL rope + 1 then some (lineStart rope line) else none

/-- offset_to_position, main.rs lines 263 to 268. -/
def offset_to_position (offset : Nat) (rope : Rope) : Option Position :=
  match try_char_to_line rope offset with
  | none => none
  | some line =>
    match try_line_to_char rope line with
    | none => none
    | some first_char_of_line => some (Position.new line (offset - first_char_of_line))

/-- Modelled from the spec: position_to_offset is not present under src; sections 4.4
and 8 of the spec specify it as the exact inverse of offset_to_position, mapping a
(line, column) pair to the start offset of that line plus the column. -/
def position_to_offset (pos : Position) (rope : Rope) : Option Nat :=
  match try_line_to_char rope pos.line with
  | none => none
  | some first_char_of_line => some (first_char_of_line + pos.character)

/-- A Rust panic raised by an unwrap on a missing value; it aborts the request handler. -/
inductive Panic where
  | panic
  deriving DecidableEq

structure InlayHintLabelPart where
  value : String
  locationUri : String
  locationRange : Range
  deriving DecidableEq

/-- InlayHintKind::TYPE. -/
def inlayHintKindType : Nat := 1

structure InlayHint where
  position : Position
  kind : Nat
  labelParts : List InlayHintLabelPart
  deriving DecidableEq

/-- Wrapping u32 subtraction: release-mode semantics of the u32 expression a - b.
A debug build panics on underflow instead; either way an underflowing anchor is
never a valid offset of the document. -/
def u32_sub (a b : Nat) : Nat :=
  (a % 2 ^ 32 + 2 ^ 32 - b % 2 ^ 32) % 2 ^ 32

/-- Option::unwrap: the contained value, or a panic that aborts the handler. -/
def unwrap {A : Type} : Option A → Except Panic A
  | none => .error .panic
  | some a => .ok a

/-- The closure mapped over the inlays vector, main.rs lines 153 to 178; both unwraps
panic when the value is missing. -/
def projectInlay (docUri : String) (document : Rope) (item : Nat × Nat × Option String) :
    Except Panic InlayHint :=
  (unwrap (offset_to_position (u32_sub item.1 2) document)).bind fun end_position =>
    (unwrap item.2.2).map fun label =>
      { position := end_position,
        kind := inlayHintKindType,
        labelParts := [{ value := label,
                         locationUri := docUri,
                         locationRange := { start := Position.new 0 4,
                                            stop := Position.new 0 5 } }] }

/-- Sequential projection of the whole inlays vector; the first panic aborts the batch. -/
def projectAll (docUri : String) (document : Rope) :
    List (Nat × Nat × Option String) → Except Panic (List InlayHint)
  | [] => .ok []
  | item :: rest =>
    (projectInlay docUri document item).bind fun h =>
      (projectAll docUri document rest).map fun hs => h :: hs

/-- The server state: the two DashMaps keyed by the uri string. The RefCell and
ThreadSafe wrappers around the stored module are concurrency plumbing and are
transparent here. -/
structure Backend where
  ast_map : String → Option ParsedModule
  document_map : String → Option Rope

/-- inlay_hint, main.rs lines 86 to 182. The unwrap on a missing ast_map entry panics;
a missing document_map entry returns Ok(None). -/
def inlay_hint (b : Backend) (uri : String) : Except Panic (Option (List InlayHint)) :=
  match b.ast_map uri with
  | none => .error .panic
  | some ast =>
    match b.document_map uri with
    | none => .ok none
    | some document =>
      match projectAll uri document (extractInlays ast) with
      | .error e => .error e
      | .ok l => .ok (some l)

def insertDocument (b : Backend) (uri : String) (rope : Rope) : Backend :=
  { b with document_map := fun k => if k = uri then some rope else b.document_map k }

def insertAst (b : Backend) (uri : String) (ast : ParsedModule) : Backend :=
  { b with ast_map := fun k => if k = uri then some ast else b.ast_map k }

/-- on_change, main.rs lines 231 to 241, parameterized by the external parser, which
returns the parsed module together with its diagnostics. The buffer is stored first,
then the parse result; the first tuple component is stored whatever the diagnostics. -/
def on_change (parse : String → ParsedModule × List String) (b : Backend)
    (uri text : String) (_version : Int) : Backend :=
  let rope := ropeFromStr text
  let b1 := insertDocument b uri rope
  insertAst b1 uri (parse text).1

/-- did_open forwards the full text to on_change, main.rs lines 54 to 64. -/
def did_open (parse : String → ParsedModule × List String) (b : Backend)
    (uri text : String) (version : Int) : Backend :=
  on_change parse b uri text version

/-- did_change forwards content_changes[0] to on_change, main.rs lines 66 to 73;
indexing an empty change list panics. -/
def did_change (parse : String → ParsedModule × List String) (b : Backend)
    (uri : String) (content_changes : List String) (version : Int) : Except Panic Backend :=
  match content_changes with
  | [] => .error .panic
  | text :: _ => .ok (on_change parse b uri text version)

/-- did_close, main.rs lines 80 to 84: it only logs, neither store is touched. -/
def did_close (b : Backend) : Backend := b

/-- The let expressions of the statement list, in source order: the sites the spec
says should each get exactly one Binding site. -/
def letExprsOfStmts : List Statement → List Expression
  | [] => []
  | .letS v :: rest => v.expression :: letExprsOfStmts rest
  | .other :: rest => letExprsOfStmts rest

def letExprsOfFuncs : List NoirFunction → List Expression
  | [] => []
  | f :: rest =>
    (match f.kind with
     | .normal => letExprsOfStmts f.fdef.body
     | .other => []) ++ letExprsOfFuncs rest

def letExprsOfModule (m : ParsedModule) : List Expression :=
  letExprsOfFuncs m.functions

def emptyModule : ParsedModule := { functions := [] }

def emptyBackend : Backend :=
  { ast_map := fun _ => none, document_map := fun _ => none }

def astOnlyBackend : Backend :=
  { ast_map := fun _ => some emptyModule, document_map := fun _ => none }

/-- A parser stub used for concrete lifecycle scenarios. -/
def parseStub : String → ParsedModule × List String := fun _ => (emptyModule, [])

def closedBackend : Backend := did_open parseStub emptyBackend "file:///a.nr" "x" 1

/-- Two let bindings, the second with a stale span from a pre-change parse. -/
def staleModule : ParsedModule :=
  { functions :=
      [ { kind := .normal,
          fdef := { body :=
            [ .letS { expression := { kind := .literal (.integer 5),
                                      span := { start := 8, stop := 9 } } },
              .letS { expression := { kind := .literal (.integer 7),
                                      span := { start := 50, stop := 55 } } } ] } } ] }

def staleBackend : Backend :=
  { ast_map := fun _ => some staleModule,
    document_map := fun _ => some (ropeFromStr "let x = 5;") }

/-- One let binding bound to a non-literal expression. -/
def nonLiteralModule : ParsedModule :=
  { functions :=
      [ { kind := .normal,
          fdef := { body :=
            [ .letS { expression := { kind := .other,
                                      span := { start := 4, stop := 9 } } } ] } } ] }

/-- One let binding bound to an integer literal at span start 8. -/
def singleLetModule : ParsedModule :=
  { functions :=
      [ { kind := .normal,
          fdef := { body :=
            [ .letS { expression := { kind := .literal (.integer 5),
                                      span := { start := 8, stop := 9 } } } ] } } ] }

def singleLetBackend : Backend :=
  { ast_map := fun _ => some singleLetModule,
    document_map := fun _ => some (ropeFromStr "let x = 5;") }

/-- One let binding whose expression span starts at offset 0. -/
def underflowModule : ParsedModule :=
  { functions :=
      [ { kind := .normal,
          fdef := { body :=
            [ .letS { expression := { kind := .literal (.bool true),
                                      span := { start := 0, stop := 4 } } } ] } } ] }

def underflowBackend : Backend :=
  { ast_map := fun _ => some underflowModule,
    document_map := fun _ => some (ropeFromStr "true") }

theorem countNL_take_le (text : Rope) : ∀ o : Nat, countNL (List.take o text) ≤ countNL text := by
  induction text with
  | nil => intro o; simp [List.take_nil]
  | cons c rest ih =>
    intro o
    cases o with
    | zero => simp [countNL]
    | succ o' =>
      simp only [List.take_succ_cons, countNL]
      exact Nat.add_le_add_right (ih o') _

theorem countNL_le_length (text : Rope) : countNL text ≤ text.length := by
  induction text with
  | nil => simp [countNL]
  | cons c rest ih =>
    simp only [countNL, List.length_cons]
    by_cases hc : c = '\n' <;> simp [hc] <;> omega

theorem lineStart_countNL_le (text : Rope) :
    ∀ o : Nat, o ≤ text.length → lineStart text (countNL (List.take o text)) ≤ o := by
  induction text with
  | nil => intro o _; simp [List.take_nil, countNL, lineStart]
  | cons c rest ih =>
    intro o ho
    cases o with
    | zero => simp [countNL, lineStart]
    | succ o' =>
      have ho' : o' ≤ rest.length := by
        simp only [List.length_cons] at ho
        omega
      by_cases hc : c = '\n'
      · subst hc
        simp only [List.take_succ_cons, countNL, lineStart, if_true]
        have := ih o' ho'
        omega
      · rw [List.take_succ_cons]
        simp only [countNL]
        rw [if_neg hc, Nat.add_zero]
        cases hk : countNL (List.take o' rest) with
        | zero => simp [lineStart]
        | succ k =>
          have h2 := ih o' ho'
          rw [hk] at h2
          simp only [lineStart]
          rw [if_neg hc]
          omega

theorem lt_lineStart_succ (text : Rope) :
    ∀ o : Nat, o < text.length → o < lineStart text (countNL (List.take o text) + 1) := by
  induction text with
  | nil => intro o ho; simp at ho
  | cons c rest ih =>
    intro o ho
    cases o with
    | zero =>
      simp only [List.take_zero, countNL, Nat.zero_add, lineStart]
      omega
    | succ o' =>
      have ho' : o' < rest.length := by
        simp only [List.length_cons] at ho
        omega
      by_cases hc : c = '\n'
      · subst hc
        simp only [List.take_succ_cons, countNL, lineStart, if_true]
        have := ih o' ho'
        omega
      · rw [List.take_succ_cons]
        simp only [countNL]
        rw [if_neg hc, Nat.add_zero]
        simp only [lineStart]
        rw [if_neg hc]
        have := ih o' ho'
        omega

theorem countNL_take_lt_of_lt (text : Rope) (offset : Nat) (h : text.length < 2 ^ 32) :
    countNL (List.take offset text) < 2 ^ 32 := by
  have h1 := countNL_take_le text offset
  have h2 := countNL_le_length text
  omega

theorem offset_to_position_none_of_gt (offset : Nat) (rope : Rope)
    (h : rope.length < offset) :
    offset_to_position offset rope = none := by
  unfold offset_to_position try_char_to_line
  rw [if_neg (by omega)]

theorem u32_sub_eq_sub (a : Nat) (h2 : 2 ≤ a) (h32 : a < 2 ^ 32) : u32_sub a 2 = a - 2 := by
  have hp : (2 : Nat) ^ 32 = 4294967296 := by norm_num
  rw [hp] at h32
  simp only [u32_sub, hp]
  omega

theorem u32_sub_underflow (a : Nat) (h : a < 2) : 2 ^ 32 - 2 ≤ u32_sub a 2 := by
  have hp : (2 : Nat) ^ 32 = 4294967296 := by norm_num
  simp only [u32_sub, hp]
  omega

theorem projectAll_ok_forall2 (uri : String) (doc : Rope) :
    ∀ (items : List (Nat × Nat × Option String)) (hints : List InlayHint),
      projectAll uri doc items = Except.ok hints →
      List.Forall₂ (fun item hint => projectInlay uri doc item = Except.ok hint) items hints := by
  intro items
  induction items with
  | nil =>
    intro hints h
    have h2 : (Except.ok ([] : List InlayHint) : Except Panic (List InlayHint)) =
        Except.ok hints := h
    cases h2
    exact List.Forall₂.nil
  | cons item rest ih =>
    intro hints h
    rw [projectAll] at h
    cases hp : projectInlay uri doc item with
    | error e =>
      rw [hp] at h
      have h2 : (Except.error e : Except Panic (List InlayHint)) = Except.ok hints := h
      cases h2
    | ok hd =>
      rw [hp] at h
      cases hr : projectAll uri doc rest with
      | error e =>
        rw [hr] at h
        have h2 : (Except.error e : Except Panic (List InlayHint)) = Except.ok hints := h
        cases h2
      | ok tl =>
        rw [hr] at h
        have h2 : (Except.ok (hd :: tl) : Except Panic (List InlayHint)) = Except.ok hints := h
        cases h2
        exact List.Forall₂.cons hp (ih tl hr)

theorem projectAll_panics_of_mem (uri : String) (doc : Rope) :
    ∀ (items : List (Nat × Nat × Option String)) (item : Nat × Nat × Option String),
      item ∈ items → projectInlay uri doc item = Except.error Panic.panic →
      projectAll uri doc items = Except.error Panic.panic := by
  intro items
  induction items with
  | nil => intro item h; cases h
  | cons a rest ih =>
    intro item hmem herr
    rw [projectAll]
    rcases List.mem_cons.mp hmem with heq | hmem'
    · subst heq
      rw [herr]
      exact rfl
    · cases hp : projectInlay uri doc a with
      | error e =>
        cases e
        exact rfl
      | ok hd =>
        rw [ih item hmem' herr]
        exact rfl

theorem projectInlay_ok_position (uri : String) (doc : Rope)
    (item : Nat × Nat × Option String) (hint : InlayHint)
    (hp : projectInlay uri doc item = Except.ok hint) :
    offset_to_position (u32_sub item.1 2) doc = some hint.position := by
  obtain ⟨s, e, lab⟩ := item
  unfold projectInlay at hp
  cases hpos : offset_to_position (u32_sub s 2) doc with
  | none =>
    simp only [hpos] at hp
    exact Except.noConfusion hp
  | some pos =>
    simp only [hpos] at hp
    cases lab with
    | none => exact Except.noConfusion hp
    | some label =>
      have h2 := Except.ok.inj hp
      rw [← h2]

theorem inlay_hint_ok_projectAll (b : Backend) (uri : String) (ast : ParsedModule)
    (doc : Rope) (hints : List InlayHint)
    (ha : b.ast_map uri = some ast) (hd : b.document_map uri = some doc)
    (hok : inlay_hint b uri = Except.ok (some hints)) :
    projectAll uri doc (extractInlays ast) = Except.ok hints := by
  unfold inlay_hint at hok
  simp only [ha, hd] at hok
  cases hp : projectAll uri doc (extractInlays ast) with
  | error e =>
    simp only [hp] at hok
    exact Except.noConfusion hok
  | ok l =>
    simp only [hp, Except.ok.injEq, Option.some.injEq] at hok
    rw [hok]

theorem inlay_hint_panics_of_failed_item (b : Backend) (uri : String) (ast : ParsedModule)
    (doc : Rope) (ha : b.ast_map uri = some ast) (hd : b.document_map uri = some doc)
    (hex : ∃ item ∈ extractInlays ast, offset_to_position (u32_sub item.1 2) doc = none) :
    inlay_hint b uri = Except.error Panic.panic := by
  obtain ⟨item, hmem, hnone⟩ := hex
  have herr : projectInlay uri doc item = Except.error Panic.panic := by
    unfold projectInlay
    rw [hnone]
    exact rfl
  simp only [inlay_hint, ha, hd,
    projectAll_panics_of_mem uri doc (extractInlays ast) item hmem herr]

theorem stmtsInlays_eq_map (ss : List Statement) :
    stmtsInlays ss =
      (letExprsOfStmts ss).map (fun e => (e.span.start, e.span.stop, literalTypeOf e.kind)) := by
  induction ss with
  | nil => rfl
  | cons s rest ih =>
    cases s with
    | letS v => simp [stmtsInlays, letExprsOfStmts, stmtInlays, ih]
    | other => simp [stmtsInlays, letExprsOfStmts, stmtInlays, ih]

theorem funcsInlays_eq_map (fs : List NoirFunction) :
    funcsInlays fs =
      (letExprsOfFuncs fs).map (fun e => (e.span.start, e.span.stop, literalTypeOf e.kind)) := by
  induction fs with
  | nil => rfl
  | cons f rest ih =>
    cases hfk : f.kind with
    | normal => simp [funcsInlays, letExprsOfFuncs, funcInlays, hfk, ih, stmtsInlays_eq_map]
    | other => simp [funcsInlays, letExprsOfFuncs, funcInlays, hfk, ih]

/-- Claim C1, counterexample: a hint query for an identifier never opened (absent from
both stores) does not return an empty result; the unwrap on the missing tree store
entry panics, aborting the handler. -/
theorem inlay_hint_never_opened_crashes :
    inlay_hint emptyBackend "file:///never-opened.nr" = Except.error Panic.panic ∧
    inlay_hint emptyBackend "file:///never-opened.nr" ≠ Except.ok none ∧
    inlay_hint emptyBackend "file:///never-opened.nr" ≠ Except.ok (some []) := by
  refine ⟨rfl, ?_, ?_⟩ <;> intro h <;> exact Except.noConfusion h

/-- Claim C1, amended: a hint query for an identifier absent from the tree store panics
(unwrap on a missing entry) instead of returning an empty result; only when a tree
entry exists and the document store entry is absent does the query return Ok None. -/
theorem inlay_hint_missing_store :
    ∀ (b : Backend) (uri : String),
      (b.ast_map uri = none → inlay_hint b uri = Except.error Panic.panic) ∧
      (∀ ast : ParsedModule, b.ast_map uri = some ast → b.document_map uri = none →
        inlay_hint b uri = Except.ok none) := by
  intro b uri
  constructor
  · intro ha
    simp only [inlay_hint, ha]
  · intro ast ha hd
    simp only [inlay_hint, ha, hd]

/-- Claim C1, witness for the amended theorem at two concrete states. -/
theorem inlay_hint_missing_store_witness :
    inlay_hint emptyBackend "file:///a.nr" = Except.error Panic.panic ∧
    inlay_hint astOnlyBackend "file:///a.nr" = Except.ok none :=
  ⟨(inlay_hint_missing_store emptyBackend "file:///a.nr").1 rfl,
   (inlay_hint_missing_store astOnlyBackend "file:///a.nr").2 emptyModule rfl rfl⟩

/-- Claim C2, counterexample: with one projectable binding site and one stale site
whose anchor offset lies outside the 10-character buffer, the whole query panics;
the projectable site is not returned even though its own projection succeeds. -/
theorem inlay_hint_stale_offset_aborts_batch :
    projectInlay "file:///stale.nr" (ropeFromStr "let x = 5;") (8, 9, some ": integer") =
      Except.ok
        { position := { line := 0, character := 6 },
          kind := 1,
          labelParts := [{ value := ": integer",
                           locationUri := "file:///stale.nr",
                           locationRange := { start := { line := 0, character := 4 },
                                              stop := { line := 0, character := 5 } } }] } ∧
    inlay_hint staleBackend "file:///stale.nr" = Except.error Panic.panic := by
  exact ⟨rfl, rfl⟩

/-- Claim C2, amended: a binding site whose anchor offset fails to resolve in the
current buffer makes the whole query panic (unwrap on the failed conversion); no
hints at all are returned for the document, instead of the failing site being
dropped silently. -/
theorem inlay_hint_failed_projection_panics :
    ∀ (b : Backend) (uri : String) (ast : ParsedModule) (doc : Rope),
      b.ast_map uri = some ast → b.document_map uri = some doc →
      (∃ item ∈ extractInlays ast, offset_to_position (u32_sub item.1 2) doc = none) →
      inlay_hint b uri = Except.error Panic.panic :=
  fun b uri ast doc ha hd hex => inlay_hint_panics_of_failed_item b uri ast doc ha hd hex

/-- Claim C2, witness for the amended theorem at the concrete stale backend. -/
theorem inlay_hint_failed_projection_panics_witness :
    inlay_hint staleBackend "file:///w2.nr" = Except.error Panic.panic :=
  inlay_hint_failed_projection_panics staleBackend "file:///w2.nr" staleModule
    (ropeFromStr "let x = 5;") rfl rfl
    ⟨(50, 55, some ": integer"), by decide, by decide⟩

/-- Claim C3, counterexample: a let statement bound to a non-literal expression still
contributes a binding site (with no label); the extracted list has length 1, not 0. -/
theorem extract_nonliteral_binding_site :
    extractInlays nonLiteralModule = [(4, 9, none)] ∧
    (extractInlays nonLiteralModule).length = 1 ∧
    extractInlays nonLiteralModule ≠ [] := by
  refine ⟨rfl, rfl, ?_⟩
  intro h
  exact List.noConfusion h

/-- Claim C3, amended: the extractor emits exactly one binding site per let statement
of every Normal function, in source order (the tuple list equals the map over the
let-bound expressions), labelling literal bindings with the four kind labels and
non-literal bindings with none; the list has length exactly N, the number of let
statements, not N minus the non-literal bindings. -/
theorem extract_one_site_per_let :
    ∀ m : ParsedModule,
      extractInlays m =
        (letExprsOfModule m).map (fun e => (e.span.start, e.span.stop, literalTypeOf e.kind)) ∧
      (extractInlays m).length = (letExprsOfModule m).length ∧
      (∀ n, literalTypeOf (.literal (.array n)) = some ": array") ∧
      (∀ v, literalTypeOf (.literal (.bool v)) = some ": bool") ∧
      (∀ v, literalTypeOf (.literal (.integer v)) = some ": integer") ∧
      (∀ t, literalTypeOf (.literal (.str t)) = some ": string") ∧
      literalTypeOf .other = none := by
  intro m
  have h := funcsInlays_eq_map m.functions
  refine ⟨h, ?_, fun _ => rfl, fun _ => rfl, fun _ => rfl, fun _ => rfl, rfl⟩
  show (funcsInlays m.functions).length = (letExprsOfFuncs m.functions).length
  rw [h, List.length_map]

/-- Claim C4: offset_to_position returns the zero-based line containing the offset
(the offset lies between that line's start and the next line's start) and the column
equals the offset minus the start offset of that line; in particular offset 5 of the
buffer with lines abc and defgh maps to line 1, column 1. -/
theorem offset_to_position_line_column :
    (∀ (text : Rope) (offset : Nat), offset < text.length → text.length < 2 ^ 32 →
      ∃ l c, offset_to_position offset text = some ⟨l, c⟩ ∧
        lineStart text l ≤ offset ∧ offset < lineStart text (l + 1) ∧
        c = offset - lineStart text l) ∧
    offset_to_position 5 (ropeFromStr "abc\ndefgh") = some ⟨1, 1⟩ := by
  constructor
  · intro text offset h1 h2
    have hl1 : countNL (List.take offset text) ≤ countNL text := countNL_take_le text offset
    have hl2 : countNL (List.take offset text) < 2 ^ 32 := countNL_take_lt_of_lt text offset h2
    have hc2 : offset - lineStart text (countNL (List.take offset text)) < 2 ^ 32 := by omega
    have e1 : try_char_to_line text offset = some (countNL (List.take offset text)) := by
      unfold try_char_to_line
      rw [if_pos (Nat.le_of_lt h1)]
    have e2 : try_line_to_char text (countNL (List.take offset text)) =
        some (lineStart text (countNL (List.take offset text))) := by
      unfold try_line_to_char
      rw [if_pos (by omega)]
    refine ⟨countNL (List.take offset text),
            offset - lineStart text (countNL (List.take offset text)), ?_,
            lineStart_countNL_le text offset (Nat.le_of_lt h1),
            lt_lineStart_succ text offset h1, rfl⟩
    unfold offset_to_position
    simp only [e1, e2, Position.new]
    rw [Nat.mod_eq_of_lt hl2, Nat.mod_eq_of_lt hc2]
  · rfl

/-- Claim C4, witness of the general part at offset 6 of a concrete two-line buffer. -/
theorem offset_to_position_line_column_witness :
    ∃ l c, offset_to_position 6 (ropeFromStr "ab\ncdef") = some ⟨l, c⟩ ∧
      lineStart (ropeFromStr "ab\ncdef") l ≤ 6 ∧
      6 < lineStart (ropeFromStr "ab\ncdef") (l + 1) ∧
      c = 6 - lineStart (ropeFromStr "ab\ncdef") l :=
  offset_to_position_line_column.1 (ropeFromStr "ab\ncdef") 6 (by decide) (by decide)

/-- Claim C5: for every valid offset of a buffer, converting to a position with
offset_to_position and back with the spec-modelled position_to_offset returns the
same offset. -/
theorem offset_position_round_trip :
    ∀ (text : Rope) (offset : Nat), offset ≤ text.length → text.length < 2 ^ 32 →
      ∃ pos : Position, offset_to_position offset text = some pos ∧
        position_to_offset pos text = some offset := by
  intro text offset h1 h2
  have hl1 : countNL (List.take offset text) ≤ countNL text := countNL_take_le text offset
  have hstart : lineStart text (countNL (List.take offset text)) ≤ offset :=
    lineStart_countNL_le text offset h1
  have hl2 : countNL (List.take offset text) < 2 ^ 32 := by
    have h3 := countNL_le_length text
    omega
  have hc2 : offset - lineStart text (countNL (List.take offset text)) < 2 ^ 32 := by omega
  have e1 : try_char_to_line text offset = some (countNL (List.take offset text)) := by
    unfold try_char_to_line
    rw [if_pos h1]
  have e2 : try_line_to_char text (countNL (List.take offset text)) =
      some (lineStart text (countNL (List.take offset text))) := by
    unfold try_line_to_char
    rw [if_pos (by omega)]
  refine ⟨⟨countNL (List.take offset text),
          offset - lineStart text (countNL (List.take offset text))⟩, ?_, ?_⟩
  · unfold offset_to_position
    simp only [e1, e2, Position.new]
    rw [Nat.mod_eq_of_lt hl2, Nat.mod_eq_of_lt hc2]
  · unfold position_to_offset
    simp only [e2]
    rw [Nat.add_sub_cancel' hstart]

/-- Claim C5, witness at the Scenario B buffer and offset 5. -/
theorem offset_position_round_trip_witness :
    ∃ pos : Position, offset_to_position 5 (ropeFromStr "abc\ndefgh") = some pos ∧
      position_to_offset pos (ropeFromStr "abc\ndefgh") = some 5 :=
  offset_position_round_trip (ropeFromStr "abc\ndefgh") 5 (by decide) (by decide)

/-- Claim C6: on_change builds the buffer from the full text and stores it in the
document map, then stores the first component of the parse result in the ast map,
whatever the diagnostics are; both stores are insert-or-replace under the identifier
and other keys are untouched. -/
theorem on_change_updates_both_stores :
    ∀ (parse : String → ParsedModule × List String) (b : Backend)
      (uri text : String) (version : Int),
      on_change parse b uri text version =
        insertAst (insertDocument b uri (ropeFromStr text)) uri (parse text).1 ∧
      (∀ k, (on_change parse b uri text version).document_map k =
        if k = uri then some (ropeFromStr text) else b.document_map k) ∧
      (∀ k, (on_change parse b uri text version).ast_map k =
        if k = uri then some (parse text).1 else b.ast_map k) := by
  intro parse b uri text version
  refine ⟨rfl, fun k => ?_, fun k => ?_⟩ <;> rfl

/-- Claim C7: every hint emitted by a successful query is anchored at the position of
the anchor offset in the current buffer, where the anchor offset is the span start
minus 2 (as u32 arithmetic, which agrees with plain subtraction when the span start
is at least 2 and below 2 to the 32). -/
theorem inlay_hint_anchor_back_offset :
    ∀ (b : Backend) (uri : String) (ast : ParsedModule) (doc : Rope) (hints : List InlayHint),
      b.ast_map uri = some ast → b.document_map uri = some doc →
      inlay_hint b uri = Except.ok (some hints) →
      List.Forall₂
        (fun (item : Nat × Nat × Option String) (hint : InlayHint) =>
          offset_to_position (u32_sub item.1 2) doc = some hint.position ∧
          (2 ≤ item.1 → item.1 < 2 ^ 32 → u32_sub item.1 2 = item.1 - 2))
        (extractInlays ast) hints := by
  intro b uri ast doc hints ha hd hok
  have hall := inlay_hint_ok_projectAll b uri ast doc hints ha hd hok
  have hf := projectAll_ok_forall2 uri doc (extractInlays ast) hints hall
  exact hf.imp fun item hint hp =>
    ⟨projectInlay_ok_position uri doc item hint hp,
     fun h2 h32 => u32_sub_eq_sub item.1 h2 h32⟩

/-- Claim C7, witness at a concrete backend with one integer-literal binding. -/
theorem inlay_hint_anchor_back_offset_witness :
    List.Forall₂
      (fun (item : Nat × Nat × Option String) (hint : InlayHint) =>
        offset_to_position (u32_sub item.1 2) (ropeFromStr "let x = 5;") = some hint.position ∧
        (2 ≤ item.1 → item.1 < 2 ^ 32 → u32_sub item.1 2 = item.1 - 2))
      (extractInlays singleLetModule)
      [{ position := { line := 0, character := 6 },
         kind := 1,
         labelParts := [{ value := ": integer",
                          locationUri := "file:///single.nr",
                          locationRange := { start := { line := 0, character := 4 },
                                             stop := { line := 0, character := 5 } } }] }] :=
  inlay_hint_anchor_back_offset singleLetBackend "file:///single.nr" singleLetModule
    (ropeFromStr "let x = 5;") _ rfl rfl rfl

/-- Claim C8, counterexample: after opening a document and handling the closed event,
both stores still hold the document, since did_close only logs. -/
theorem did_close_keeps_entries :
    (did_close closedBackend).document_map "file:///a.nr" = some (ropeFromStr "x") ∧
    (did_close closedBackend).ast_map "file:///a.nr" = some emptyModule :=
  ⟨rfl, rfl⟩

/-- Claim C8, amended: the document-closed handler removes nothing; both stores are
unchanged by did_close, so entries persist after close. -/
theorem did_close_removes_nothing :
    ∀ (b : Backend) (uri : String),
      (did_close b).document_map uri = b.document_map uri ∧
      (did_close b).ast_map uri = b.ast_map uri :=
  fun _ _ => ⟨rfl, rfl⟩

/-- Claim C9: opening a document and then handling a changed event with the identical
text leaves the stored tree structurally equal to the one stored by the open. -/
theorem reparse_idempotent :
    ∀ (parse : String → ParsedModule × List String) (b : Backend)
      (uri text : String) (v1 v2 : Int),
      ∃ b2 : Backend,
        did_change parse (did_open parse b uri text v1) uri [text] v2 = Except.ok b2 ∧
        b2.ast_map uri = (did_open parse b uri text v1).ast_map uri := by
  intro parse b uri text v1 v2
  refine ⟨on_change parse (did_open parse b uri text v1) uri text v2, rfl, ?_⟩
  simp [did_open, on_change, insertAst, insertDocument]

/-- Claim C10: the anchor computation subtracts 2 in u32 arithmetic with no guard: a
span start below 2 wraps to at least 2 to the 32 minus 2 (a debug build panics at the
subtraction itself), a span start of at least 2 gives span start minus 2, and a query
over a tree holding such an underflowing site panics for any realistically sized
buffer, so the query is only safe when every span start is at least 2. -/
theorem anchor_underflow_wraps :
    (∀ s : Nat, s < 2 → 2 ^ 32 - 2 ≤ u32_sub s 2) ∧
    (∀ s : Nat, 2 ≤ s → s < 2 ^ 32 → u32_sub s 2 = s - 2) ∧
    (∀ (b : Backend) (uri : String) (ast : ParsedModule) (doc : Rope),
      b.ast_map uri = some ast → b.document_map uri = some doc →
      doc.length + 2 < 2 ^ 32 →
      (∃ item ∈ extractInlays ast, item.1 < 2) →
      inlay_hint b uri = Except.error Panic.panic) := by
  refine ⟨u32_sub_underflow, u32_sub_eq_sub, ?_⟩
  intro b uri ast doc ha hd hlen hex
  obtain ⟨item, hmem, hsmall⟩ := hex
  have hbig := u32_sub_underflow item.1 hsmall
  have hgt : doc.length < u32_sub item.1 2 := by
    have hp : (2 : Nat) ^ 32 = 4294967296 := by norm_num
    rw [hp] at hbig hlen
    omega
  have hnone := offset_to_position_none_of_gt (u32_sub item.1 2) doc hgt
  exact inlay_hint_panics_of_failed_item b uri ast doc ha hd ⟨item, hmem, hnone⟩

/-- Claim C10, witness: the wrapped anchor for span start 0, the guarded subtraction
at span start 5, and the concrete panicking query over a span starting at offset 0. -/
theorem anchor_underflow_wraps_witness :
    2 ^ 32 - 2 ≤ u32_sub 0 2 ∧ u32_sub 5 2 = 3 ∧
    inlay_hint underflowBackend "file:///under.nr" = Except.error Panic.panic :=
  ⟨anchor_underflow_wraps.1 0 (by decide),
   anchor_underflow_wraps.2.1 5 (by decide) (by decide),
   anchor_underflow_wraps.2.2 underflowBackend "file:///under.nr" underflowModule
     (ropeFromStr "true") rfl rfl (by decide)
     ⟨(0, 4, some ": bool"), by decide, by decide⟩⟩

end NoirLsp
